import Mathlib

set_option maxRecDepth 100000

/-!
Verification development for the coordinate-based table extractor of
`src/extraction.py` (class `TableExtractor`).

The embedding works over exact rationals (`ℚ`) in place of Python floats;
all heuristic constants (`0.2`, `0.3`, `0.6`, `1.5`, thresholds) are taken
as the exact rationals they denote in the source text.  Python's `round`
(banker's rounding, ties to even) is modelled exactly by `pyRound`.
Strings are Lean `String`s; Python's Unicode `str.isalpha` is modelled by
`pyIsAlpha`, which covers ASCII letters plus the accented letters that
occur in the inputs considered here.  The regular expressions used by the
source are embedded as direct scanners over `List Char`.
-/

/-- Python `round` on a rational: nearest integer, ties to even. -/
def pyRound (q : ℚ) : ℤ :=
  if q - Int.floor q < 1/2 then Int.floor q
  else if (1 : ℚ)/2 < q - Int.floor q then Int.floor q + 1
  else if 2 ∣ Int.floor q then Int.floor q else Int.floor q + 1

/-- `round(x / 10) * 10`: the 10-pixel bucket used by `_detect_column_boundaries`. -/
def bucket (x : ℚ) : ℚ := ((pyRound (x / 10) : ℤ) : ℚ) * 10

/-- Insert into a sorted list, keeping an element before later equal keys
(the stability behaviour of Python's `sorted`). -/
def insKey {α β : Type} [LinearOrder β] (key : α → β) (a : α) : List α → List α
  | [] => [a]
  | b :: bs => if key a ≤ key b then a :: b :: bs else b :: insKey key a bs

/-- Stable sort by a key, modelling Python's `sorted(..., key=...)`. -/
def sortKey {α β : Type} [LinearOrder β] (key : α → β) : List α → List α
  | [] => []
  | a :: as => insKey key a (sortKey key as)

/-- Python `sorted(set(l))`: the distinct values in ascending order. -/
def dedupSort (l : List ℚ) : List ℚ := sortKey id l.dedup

/-- Python `min(l, key=f)`: the first element attaining the minimal key. -/
def pyMinBy {α β : Type} [LinearOrder β] (f : α → β) : List α → Option α
  | [] => none
  | a :: rest => some (rest.foldl (fun best e => if f e < f best then e else best) a)

/-- Model of Python's Unicode `str.isalpha` for the characters appearing in
this development: ASCII letters plus common French accented letters. -/
def pyIsAlpha (c : Char) : Bool :=
  c.isAlpha ||
    c ∈ ['à', 'â', 'ä', 'é', 'è', 'ê', 'ë', 'î', 'ï', 'ô', 'ö', 'ù', 'û', 'ü', 'ç',
         'À', 'Â', 'Ä', 'É', 'È', 'Ê', 'Ë', 'Î', 'Ï', 'Ô', 'Ö', 'Ù', 'Û', 'Ü', 'Ç']

/-- Word characters for the regex `\b` boundary (`[A-Za-z0-9_]` plus letters). -/
def isWordChar (c : Char) : Bool := pyIsAlpha c || c.isDigit || c = '_'

/-- All suffixes of a character list (used to model `re.search`). -/
def suffixes : List Char → List (List Char)
  | [] => [[]]
  | c :: cs => (c :: cs) :: suffixes cs

/-- Match a literal at the front; on success return the remainder. -/
def afterLit : List Char → List Char → Option (List Char)
  | [], cs => some cs
  | _ :: _, [] => none
  | p :: ps, c :: cs => if c = p then afterLit ps cs else none

/-- Substring containment, modelling Python's `needle in haystack`. -/
def containsSub (needle hay : List Char) : Bool :=
  (suffixes hay).any (fun s => (afterLit needle s).isSome)

/-- Consume exactly `n` digits; on success return the remainder. -/
def digs : List Char → Nat → Option (List Char)
  | cs, 0 => some cs
  | c :: cs, n + 1 => if c.isDigit then digs cs n else none
  | [], _ + 1 => none

/-- The ways `\d{1,2}` can match at the front, in greedy order:
(number of digits consumed, remainder). -/
def d12opts (cs : List Char) : List (Nat × List Char) :=
  match cs with
  | a :: b :: rest =>
      if a.isDigit then
        (if b.isDigit then [(2, rest), (1, b :: rest)] else [(1, b :: rest)])
      else []
  | [a] => if a.isDigit then [(1, ([] : List Char))] else []
  | [] => []

/-- Greedy match of `\d{1,2}/\d{1,2}/\d{4}` at the front of the list,
returning the number of characters consumed. -/
def dateFullAt (cs : List Char) : Option Nat :=
  List.findSome? (fun pr1 =>
    match pr1.2 with
    | '/' :: r1 =>
        List.findSome? (fun pr2 =>
          match pr2.2 with
          | '/' :: r2 =>
              match digs r2 4 with
              | some _ => some (pr1.1 + 1 + pr2.1 + 1 + 4)
              | none => none
          | _ => none) (d12opts r1)
    | _ => none) (d12opts cs)

/-- Does `\d{1,2}` SEP `\d{1,2}` SEP `\d{k}` match at the front? -/
def sepDateAt (sep : Char) (k : Nat) (cs : List Char) : Bool :=
  (d12opts cs).any (fun pr1 =>
    match pr1.2 with
    | c1 :: r1 =>
        c1 = sep && (d12opts r1).any (fun pr2 =>
          match pr2.2 with
          | c2 :: r2 => c2 = sep && (digs r2 k).isSome
          | _ => false)
    | _ => false)

/-- Does `\d{1,2}` SEP `\d{k}` match at the front? -/
def d12SepAt (sep : Char) (k : Nat) (cs : List Char) : Bool :=
  (d12opts cs).any (fun pr =>
    match pr.2 with
    | c :: r => c = sep && (digs r k).isSome
    | _ => false)

/-- Four consecutive digits at the front (`\d{4}`). -/
def fourDigitsAt (cs : List Char) : Bool := (digs cs 4).isSome

/-- After optional further whitespace, is the next character `n`? -/
def nAfterWs : List Char → Bool
  | [] => false
  | c :: cs => if c.isWhitespace then nAfterWs cs else c = 'n'

/-- `exercice\s+n(?:-\d)?` at the front (the optional group does not affect
whether a match exists). -/
def exerciceAt (cs : List Char) : Bool :=
  match afterLit "exercice".toList cs with
  | none => false
  | some r =>
      match r with
      | c :: r2 => c.isWhitespace && nAfterWs r2
      | [] => false

/-- `n-\d` at the front. -/
def nDashAt : List Char → Bool
  | 'n' :: '-' :: d :: _ => d.isDigit
  | _ => false

/-- `(19|20)\d{2}` at the front, with a `\b` boundary after the match. -/
def yearTokenAt : List Char → Bool
  | a :: b :: c :: d :: rest =>
      ((a = '1' && b = '9') || (a = '2' && b = '0')) && c.isDigit && d.isDigit &&
        (match rest with
         | [] => true
         | e :: _ => !isWordChar e)
  | _ => false

/-- Is the position (given the previous character) a `\b` boundary before a
word character? -/
def boundaryOk : Option Char → Bool
  | none => true
  | some p => !isWordChar p

/-- `re.search(r'\b(19|20)\d{2}\b', s)`: scan with the previous character
tracked for the left word boundary. -/
def yearSearchAux : Option Char → List Char → Bool
  | _, [] => false
  | prev, c :: cs => (boundaryOk prev && yearTokenAt (c :: cs)) || yearSearchAux (some c) cs

def yearSearch (cs : List Char) : Bool := yearSearchAux none cs

/-- `re.search(r'\d{1,2}/\d{1,2}/\d{4}', s)`. -/
def dateFullSearch (cs : List Char) : Bool :=
  (suffixes cs).any (fun t => (dateFullAt t).isSome)

/-- `re.sub(r'\d{1,2}/\d{1,2}/\d{4}', '', s)`: remove non-overlapping
leftmost matches.  Each step consumes at least one character, so fuel equal
to the length of the list suffices and the fuel-exhausted branch is never
reached. -/
def stripDatesFuel : Nat → List Char → List Char
  | 0, _ => []
  | _, [] => []
  | fuel + 1, c :: cs =>
      match dateFullAt (c :: cs) with
      | some n => stripDatesFuel fuel ((c :: cs).drop n)
      | none => c :: stripDatesFuel fuel cs

def stripDates (l : List Char) : List Char := stripDatesFuel l.length l

/-- `re.sub(r'\b(19|20)\d{2}\b', '', s)`: the previous character of the
original string is tracked for the left word boundary. -/
def stripYearsAux : Option Char → List Char → List Char
  | _, [] => []
  | prev, c :: cs =>
      if boundaryOk prev && yearTokenAt (c :: cs) then
        match cs with
        | _ :: _ :: d3 :: rest => stripYearsAux (some d3) rest
        | _ => []
      else c :: stripYearsAux (some c) cs

def stripYears (l : List Char) : List Char := stripYearsAux none l

/-- A text fragment as delivered by OCR: possibly missing text, and a
bounding box given as a list of corner points (possibly degenerate, i.e.
having fewer than the three corners the extractor reads). -/
structure Frag where
  text : Option String
  bbox : List (ℚ × ℚ)
deriving DecidableEq, Repr

/-- A fragment all of whose fields used by the extractor are present:
its text, its left-edge x `bbox[0][0]`, and the two corner ys
`bbox[0][1]` and `bbox[2][1]`. -/
structure VFrag where
  text : String
  x : ℚ
  y1 : ℚ
  y2 : ℚ
deriving DecidableEq, Repr

/-- Extract the fields the Python code reads from a raw fragment.  The
source accesses `b['bbox'][0]`, `b['bbox'][2]` and `b['text']` for every
fragment during row grouping and row classification (i.e. before any table
is accumulated); a fragment for which any of these accesses fails raises,
and the `except` at `_detect_tables_from_coordinates` turns that into an
empty result for the page. -/
def validate (f : Frag) : Option VFrag :=
  match f.bbox.get? 0, f.bbox.get? 2, f.text with
  | some p0, some p2, some t => some ⟨t, p0.1, p0.2, p2.2⟩
  | _, _, _ => none

/-- Validate every fragment of the page; `none` as soon as one fragment is
malformed, modelling the exception the first failing field access raises. -/
def validateAll : List Frag → Option (List VFrag)
  | [] => some []
  | f :: fs =>
      match validate f, validateAll fs with
      | some v, some vs => some (v :: vs)
      | _, _ => none

/-- Vertical center `(bbox[0][1] + bbox[2][1]) / 2`. -/
def yc (b : VFrag) : ℚ := (b.y1 + b.y2) / 2

def sortByY (blocks : List VFrag) : List VFrag := sortKey yc blocks

def sortByX (row : List VFrag) : List VFrag := sortKey (fun b => b.x) row

/-- The scan of `_group_into_rows`: `cur` is the current row with its most
recently added block first; a gap of more than 10 pixels between vertical
centers closes the row (rows are emitted sorted by x). -/
def groupRowsAux : List VFrag → List VFrag → List (List VFrag)
  | cur, [] => [sortByX cur.reverse]
  | [], b :: rest => groupRowsAux [b] rest
  | p :: ps, b :: rest =>
      if |yc b - yc p| ≤ 10 then groupRowsAux (b :: p :: ps) rest
      else sortByX (p :: ps).reverse :: groupRowsAux [b] rest

/-- `_group_into_rows`: sort by vertical center, then accumulate rows. -/
def groupIntoRows (blocks : List VFrag) : List (List VFrag) :=
  match sortByY blocks with
  | [] => []
  | b :: rest => groupRowsAux [b] rest

def hasDigitStr (s : String) : Bool := s.toList.any Char.isDigit

def hasAlphaStr (s : String) : Bool := s.toList.any pyIsAlpha

/-- `_is_financial_row`.  The source also tracks a `num_count` of
primarily-numeric blocks, which is never read afterwards and is omitted
here. -/
def isFinancialRow (row : List VFrag) : Bool :=
  if row.length < 1 then false
  else
    let hasNumber := row.any (fun b => hasDigitStr b.text)
    let hasText := row.any (fun b =>
      !hasDigitStr b.text && hasAlphaStr b.text && decide (2 < b.text.length))
    (hasText || hasNumber) && decide (1 ≤ row.length)

def headerKeywords : List String :=
  ["actif", "passif", "total", "brut", "amortissement", "amort",
   "net", "exercice", "capital", "reserves", "resultat",
   "charges", "produits", "exploitation", "financier",
   "montant", "date", "libelle", "compte", "deprec",
   "n-1", "n+1", "2023", "2022", "2024", "2021"]

/-- `_is_header_row`: keyword / year / date content, and mostly-text (with
dates and years stripped) or a short row. -/
def isHeaderRow (row : List VFrag) : Bool :=
  let textContent := String.intercalate " " (row.map (fun b => b.text.toLower))
  let cs := textContent.toList
  let hasYear := yearSearch cs
  let hasDate := dateFullSearch cs
  let hasKeyword := headerKeywords.any (fun k => containsSub k.toList cs)
  let clean := stripYears (stripDates cs)
  let numChars := clean.countP (fun c => c.isDigit)
  let textChars := clean.countP (fun c => pyIsAlpha c)
  -- `text_chars > num_chars * 1.5` over the integer counts
  let isMostlyText := decide (3 * numChars < 2 * textChars)
  (hasKeyword || hasYear || hasDate) && (isMostlyText || decide (row.length ≤ 4))

/-- Vertical center of a row's first block (`row[0]`); rows produced by
`_group_into_rows` are never empty, so the `[]` branch is unreachable in
the pipeline. -/
def rowY (r : List VFrag) : ℚ :=
  match r with
  | [] => 0
  | b :: _ => yc b

/-- `_validate_table_structure`: at least 20% multi-column rows, or —
failing that — at least 30% digit-bearing rows. -/
def validateTableStructure (tableRows : List (List VFrag)) : Bool :=
  let multiCol := tableRows.countP (fun r => decide (2 ≤ r.length))
  if (multiCol : ℚ) < (tableRows.length : ℚ) * (1/5) then
    let numRows := tableRows.countP (fun r => r.any (fun b => hasDigitStr b.text))
    if (numRows : ℚ) < (tableRows.length : ℚ) * (3/10) then false else true
  else true

/-- Closing a running table in `_group_rows_into_tables`: kept only with at
least 3 rows and a valid structure. -/
def keepTable (t : List (List VFrag)) : List (List (List VFrag)) :=
  if 3 ≤ t.length ∧ validateTableStructure t then [t] else []

/-- The scan of `_group_rows_into_tables`; `cur` holds the running table
with its most recently added row first. -/
def groupTablesAux : List (List VFrag) → List (List VFrag) → List (List (List VFrag))
  | cur, [] => keepTable cur.reverse
  | [], r :: rest => groupTablesAux [r] rest
  | p :: ps, r :: rest =>
      if rowY r - rowY p ≤ 60 ∧ |(r.length : ℤ) - (p.length : ℤ)| ≤ 2 then
        groupTablesAux (r :: p :: ps) rest
      else keepTable (p :: ps).reverse ++ groupTablesAux [r] rest

/-- `_group_rows_into_tables`. -/
def groupRowsIntoTables (rows : List (List VFrag)) : List (List (List VFrag)) :=
  match rows with
  | [] => []
  | r :: rest => groupTablesAux [r] rest

/-- All left-edge x coordinates of a block list (`_detect_column_boundaries`). -/
def cbXs (tableRows : List (List VFrag)) : List ℚ := tableRows.flatten.map (fun b => b.x)

/-- `min_x`: the minimum left-edge x across the whole block (the source
starts from `inf`; the `[]` branch is guarded by the empty-input check). -/
def cbMinX (tableRows : List (List VFrag)) : ℚ :=
  match cbXs tableRows with
  | [] => 0
  | x :: rest => rest.foldl min x

/-- `leftmost = round(min_x / 10) * 10`. -/
def cbLeftmost (tableRows : List (List VFrag)) : ℚ := bucket (cbMinX tableRows)

/-- `x_position_counts[q]`: how many blocks round to the bucket `q`. -/
def cbCnt (tableRows : List (List VFrag)) (q : ℚ) : Nat :=
  ((cbXs tableRows).map bucket).count q

/-- `x_positions = sorted(x_position_counts.keys())`. -/
def cbPositions (tableRows : List (List VFrag)) : List ℚ :=
  dedupSort ((cbXs tableRows).map bucket)

/-- Consecutive differences of a list. -/
def pairGaps : List ℚ → List ℚ
  | a :: b :: rest => (b - a) :: pairGaps (b :: rest)
  | _ => []

/-- Gaps above 20px between consecutive x buckets. -/
def cbGaps (tableRows : List (List VFrag)) : List ℚ :=
  (pairGaps (cbPositions tableRows)).filter (fun g => 20 < g)

/-- `cluster_threshold = max(50, min(200, int(avg_gap * 0.6)))`, default 50
when there are no gaps (`int` truncates; the gaps are positive, so this is
the floor). -/
def cbThr (tableRows : List (List VFrag)) : ℚ :=
  match cbGaps tableRows with
  | [] => 50
  | g :: gs =>
      let gaps := g :: gs
      let avg : ℚ := gaps.foldl (· + ·) 0 / (gaps.length : ℚ)
      max 50 (min 200 ((Int.floor (avg * (3/5)) : ℤ) : ℚ))

/-- Close a cluster: its most frequent member, first such member winning
(`min(current_cluster, key=lambda p: -count(p))`). -/
def sweepRep (cnt : ℚ → Nat) (cur : List ℚ) : List ℚ :=
  match pyMinBy (fun p => -(cnt p : ℤ)) cur with
  | some r => [r]
  | none => []

/-- The clustering sweep of `_detect_column_boundaries`: skip positions
within the threshold of `leftmost`, merge positions closer than the
threshold to the last member of the running cluster, and emit each closed
cluster's representative.  `cur` holds the running cluster with its most
recently added member first. -/
def sweepAux (cnt : ℚ → Nat) (leftmost thr : ℚ) : List ℚ → List ℚ → List ℚ
  | cur, [] => sweepRep cnt cur.reverse
  | [], x :: rest =>
      if |x - leftmost| < thr then sweepAux cnt leftmost thr [] rest
      else sweepAux cnt leftmost thr [x] rest
  | l :: ls, x :: rest =>
      if |x - leftmost| < thr then sweepAux cnt leftmost thr (l :: ls) rest
      else if x - l < thr then sweepAux cnt leftmost thr (x :: l :: ls) rest
      else sweepRep cnt (l :: ls).reverse ++ sweepAux cnt leftmost thr [x] rest

def cbReps (tableRows : List (List VFrag)) : List ℚ :=
  sweepAux (cbCnt tableRows) (cbLeftmost tableRows) (cbThr tableRows) [] (cbPositions tableRows)

/-- `clusters = sorted(set([leftmost] + representatives))`. -/
def cbClusters (tableRows : List (List VFrag)) : List ℚ :=
  dedupSort (cbLeftmost tableRows :: cbReps tableRows)

/-- Total frequency near a cluster, for the 8-column cap. -/
def cbClusterFreq (tableRows : List (List VFrag)) (c : ℚ) : Nat :=
  ((cbPositions tableRows).filter (fun p => decide (|p - c| < cbThr tableRows))).foldl
    (fun s p => s + cbCnt tableRows p) 0

/-- `_detect_column_boundaries`. -/
def columnBoundaries (tableRows : List (List VFrag)) : List ℚ :=
  if tableRows.isEmpty then []
  else if (cbXs tableRows).isEmpty then []
  else
    let clusters := cbClusters tableRows
    if 8 < clusters.length then
      -- `first_col = clusters[0]`, `other_cols = clusters[1:]`; `clusters`
      -- always contains `leftmost`, so it is never empty here
      let firstCol := clusters.headI
      let otherCols := clusters.tail
      let colsWF := otherCols.map (fun c => (c, cbClusterFreq tableRows c))
      let sortedWF := sortKey (fun pr => -(pr.2 : ℤ)) colsWF
      firstCol :: sortKey id ((sortedWF.take 7).map (fun pr => pr.1))
    else clusters

/-- The table's y position, `None` standing for the `float('inf')` the
source uses when the table's first row is empty. -/
def tableYOf (table : List (List VFrag)) : Option ℚ :=
  match table with
  | [] => none
  | t0 :: _ =>
      match t0 with
      | [] => none
      | b :: _ => some (yc b)

/-- `header_y >= table_y` (skip condition of the explicit-header loop);
false against `inf`. -/
def headerBelow (tableY : Option ℚ) (hy : ℚ) : Bool :=
  match tableY with
  | none => false
  | some ty => decide (ty ≤ hy)

/-- `1 / (1 + (table_y - header_y) / 100)`; `0` against `inf`, as in float
arithmetic `1/inf = 0`. -/
def proximityTo (tableY : Option ℚ) (hy : ℚ) : ℚ :=
  match tableY with
  | none => 0
  | some ty => 1 / (1 + (ty - hy) / 100)

/-- The alignment-times-proximity score of one candidate header row. -/
def scoreHeader (bounds : List ℚ) (tableY : Option ℚ) (h : List VFrag) (hy : ℚ) : ℚ :=
  let aligned := h.countP (fun blk => bounds.any (fun bd => decide (|blk.x - bd| < 40)))
  let norm : ℚ := if 0 < h.length then (aligned : ℚ) / (h.length : ℚ) else (aligned : ℚ)
  norm * proximityTo tableY hy

/-- The explicit-header loop of `_find_matching_header`: keep the first
highest-scoring header row above the table. -/
def bestHeaderFold (bounds : List ℚ) (tableY : Option ℚ)
    (headerRows : List (List VFrag)) : Option (List VFrag) × ℚ :=
  headerRows.foldl (fun st h =>
    match h with
    | [] => st
    | hb :: _ =>
        let hy := yc hb
        if headerBelow tableY hy then st
        else
          let total := scoreHeader bounds tableY h hy
          if st.2 < total then (some h, total) else st) (none, 0)

def constructKeywords : List String :=
  ["brut", "net", "amortissement", "depreciation", "total", "montant"]

/-- `is_header_text` of `_construct_header_from_aligned_text`: one of the
eight date patterns, or a keyword. -/
def isConstructHeaderText (t : List Char) : Bool :=
  (suffixes t).any (fun s => (dateFullAt s).isSome) ||      -- \d{1,2}/\d{1,2}/\d{4}
  (suffixes t).any (sepDateAt '/' 2) ||                     -- \d{1,2}/\d{1,2}/\d{2}
  (suffixes t).any (d12SepAt '/' 4) ||                      -- \d{1,2}/\d{4}
  (suffixes t).any (sepDateAt '-' 4) ||                     -- \d{1,2}-\d{1,2}-\d{4}
  (suffixes t).any (sepDateAt '-' 2) ||                     -- \d{1,2}-\d{1,2}-\d{2}
  (suffixes t).any fourDigitsAt ||                          -- \d{4}
  (suffixes t).any exerciceAt ||                            -- exercice\s+n(?:-\d)?
  (suffixes t).any nDashAt ||                               -- n-\d
  constructKeywords.any (fun k => containsSub k.toList t)

/-- `row_y >= table_y` for the synthesis scan; false against `inf`. -/
def rowAtOrBelow (tableY : Option ℚ) (ry : ℚ) : Bool :=
  match tableY with
  | none => false
  | some ty => decide (ty ≤ ry)

/-- `table_y - row_y > 200` for the synthesis scan; true against `inf`. -/
def farAbove (tableY : Option ℚ) (ry : ℚ) : Bool :=
  match tableY with
  | none => true
  | some ty => decide (200 < ty - ry)

/-- One block of the synthesis scan: keep it if its stripped lowercased
text is header-ish, its left edge lies within 50px of some boundary, and
no already-kept block lies within 30px of its x. -/
def chBlockStep (bounds : List ℚ) (acc : List VFrag) (b : VFrag) : List VFrag :=
  let t := b.text.trim.toLower
  if isConstructHeaderText t.toList && bounds.any (fun bd => decide (|b.x - bd| < 50)) then
    if acc.any (fun hb => decide (|hb.x - b.x| < 30)) then acc else acc ++ [b]
  else acc

/-- One row of the synthesis scan: rows at or below the table, or more than
200px above it, are skipped. -/
def chRowStep (tableY : Option ℚ) (bounds : List ℚ) (acc : List VFrag)
    (row : List VFrag) : List VFrag :=
  match row with
  | [] => acc
  | b0 :: _ =>
      let ry := yc b0
      if rowAtOrBelow tableY ry then acc
      else if farAbove tableY ry then acc
      else row.foldl (chBlockStep bounds) acc

/-- `_construct_header_from_aligned_text`; the `table` argument is unused
in the source's body as well. -/
def constructHeader (allRows : List (List VFrag)) (_table : List (List VFrag))
    (bounds : List ℚ) (tableY : Option ℚ) : Option (List VFrag) :=
  let hb := allRows.foldl (chRowStep tableY bounds) []
  if 2 ≤ hb.length then some hb else none

/-- `_find_matching_header`: explicit-header search, accepted above a 0.3
score, otherwise header synthesis. -/
def findMatchingHeader (headerRows table : List (List VFrag)) (bounds : List ℚ)
    (allRows : List (List VFrag)) : Option (List VFrag) :=
  match table with
  | [] => none
  | _ :: _ =>
      let tableY := tableYOf table
      let best := bestHeaderFold bounds tableY headerRows
      match best.1 with
      | some h => if (3/10 : ℚ) < best.2 then some h
                  else constructHeader allRows table bounds tableY
      | none => constructHeader allRows table bounds tableY

/-- First index of the boundary nearest to `x` (strict improvement only, so
the earlier boundary wins ties), as in `_create_aligned_html_table`. -/
def nearestAux (x : ℚ) : Nat → Nat → ℚ → List ℚ → Nat
  | _, bestI, _, [] => bestI
  | i, bestI, bestD, bd :: rest =>
      if |x - bd| < bestD then nearestAux x (i + 1) i |x - bd| rest
      else nearestAux x (i + 1) bestI bestD rest

def nearestIdx (bounds : List ℚ) (x : ℚ) : Nat :=
  match bounds with
  | [] => 0
  | b :: rest => nearestAux x 1 0 |x - b| rest

/-- Distribute a row's blocks (in left-to-right order) over one cell per
boundary, concatenating with a space when a cell already has content. -/
def assignCells (bounds : List ℚ) (row : List VFrag) : List String :=
  (sortByX row).foldl (fun cells b =>
    let ci := min (nearestIdx bounds b.x) (cells.length - 1)
    match cells.get? ci with
    | some "" => cells.set ci b.text
    | some old => cells.set ci (old ++ " " ++ b.text)
    | none => cells) (List.replicate bounds.length "")

/-- `th` for the first row when it classifies as a header row, else `td`. -/
def rowTag (idx : Nat) (row : List VFrag) : String :=
  if decide (idx = 0) && isHeaderRow row then "th" else "td"

def cellHtml (tag c : String) : String := "<" ++ tag ++ ">" ++ c ++ "</" ++ tag ++ ">"

def rowHtml (tag : String) (cells : List String) : String :=
  "<tr>" ++ String.join (cells.map (cellHtml tag)) ++ "</tr>"

/-- `_create_aligned_html_table`. -/
def createAlignedHtmlTable (tableRows : List (List VFrag)) (bounds : List ℚ) : String :=
  if tableRows.isEmpty || bounds.isEmpty then "<table></table>"
  else
    "<table>" ++
      String.join (tableRows.enum.map (fun pr =>
        rowHtml (rowTag pr.1 pr.2) (assignCells bounds pr.2))) ++
    "</table>"

def headerRowsOf (rows : List (List VFrag)) : List (List VFrag) :=
  rows.filter isHeaderRow

def dataRowsOf (rows : List (List VFrag)) : List (List VFrag) :=
  rows.filter (fun r => !isHeaderRow r && isFinancialRow r)

/-- Steps 1–4 of `_detect_tables_from_coordinates` on validated fragments,
returning for each detected table its complete row list (matched header
included) together with its rendered HTML. -/
def pageTables (vfs : List VFrag) : List (List (List VFrag) × String) :=
  let rows := groupIntoRows vfs
  let headerRows := headerRowsOf rows
  let dataRows := dataRowsOf rows
  if dataRows.isEmpty then []
  else
    (groupRowsIntoTables dataRows).map (fun table =>
      let bounds := columnBoundaries table
      let complete :=
        match findMatchingHeader headerRows table bounds rows with
        | some h => h :: table
        | none => table
      (complete, createAlignedHtmlTable complete bounds))

/-- The output record of `extract_tables_from_page`. -/
structure ExtractedTable where
  html_structure : String
deriving DecidableEq, Repr

/-- `extract_tables_from_page`.  Every fallible field access the source
performs (`bbox[0]`, `bbox[2]`, `text`) happens for every fragment during
row grouping and row classification, before any table is appended to
`tables_data`; the `except` clause therefore always returns the
still-empty list, which the `none` branch models. -/
def extract_tables_from_page (textBlocks : List Frag) (_pageNum : Nat) : List ExtractedTable :=
  if textBlocks.isEmpty then []
  else
    match validateAll textBlocks with
    | some vfs => (pageTables vfs).map (fun pr => ⟨pr.2⟩)
    | none => []

/-- The complete (header plus body) row lists of the page's tables — the
content of each rendered table, for stating fragment-level properties. -/
def completeTablesOf (textBlocks : List Frag) : List (List (List VFrag)) :=
  if textBlocks.isEmpty then []
  else
    match validateAll textBlocks with
    | some vfs => (pageTables vfs).map (fun pr => pr.1)
    | none => []

/-- A well-formed fragment: text plus a rectangle with vertical center `y`. -/
def mkFrag (t : String) (x y : ℚ) : Frag :=
  ⟨some t, [(x, y - 5), (x + 60, y - 5), (x + 60, y + 5), (x, y + 5)]⟩

/-- The validated form of `mkFrag t x y`. -/
def mkV (t : String) (x y : ℚ) : VFrag := ⟨t, x, y - 5, y + 5⟩

/-- Scenario A of the specification: a header row at y=100 and two data
rows at y=130 and y=160, aligned at x = 10, 200, 350. -/
def scenarioA : List Frag :=
  [mkFrag "Actif" 10 100, mkFrag "Brut" 200 100, mkFrag "Net" 350 100,
   mkFrag "Terrain" 10 130, mkFrag "1 000" 200 130, mkFrag "800" 350 130,
   mkFrag "Bâtiments" 10 160, mkFrag "2 500" 200 160, mkFrag "2 100" 350 160]

/-- The validated fragments of Scenario A. -/
def scenarioAV : List VFrag :=
  [mkV "Actif" 10 100, mkV "Brut" 200 100, mkV "Net" 350 100,
   mkV "Terrain" 10 130, mkV "1 000" 200 130, mkV "800" 350 130,
   mkV "Bâtiments" 10 160, mkV "2 500" 200 160, mkV "2 100" 350 160]

/-- Scenario B of the specification: a single isolated numeric fragment. -/
def scenarioB : List Frag := [mkFrag "1 000" 200 100]

/-- A page with one header row ("Brut"/"Net" at y=50) followed by two
three-row data tables separated by a 70px gap; the header aligns with the
column boundaries of both tables and scores above 0.3 for both. -/
def sharedHeaderInput : List Frag :=
  [mkFrag "Brut" 200 50, mkFrag "Net" 350 50,
   mkFrag "Terrain" 10 100, mkFrag "1 000" 200 100, mkFrag "800" 350 100,
   mkFrag "Stock" 10 130, mkFrag "2 000" 200 130, mkFrag "700" 350 130,
   mkFrag "Clients" 10 160, mkFrag "3 000" 200 160, mkFrag "500" 350 160,
   mkFrag "Machines" 10 230, mkFrag "4 000" 200 230, mkFrag "900" 350 230,
   mkFrag "Outillage" 10 260, mkFrag "5 000" 200 260, mkFrag "600" 350 260,
   mkFrag "Mobilier" 10 290, mkFrag "6 000" 200 290, mkFrag "400" 350 290]

/-- A page holding exactly one well-formed three-row table. -/
def goodPage : List Frag :=
  [mkFrag "Terrain" 10 100, mkFrag "1 000" 200 100, mkFrag "800" 350 100,
   mkFrag "Stock" 10 130, mkFrag "2 000" 200 130, mkFrag "700" 350 130,
   mkFrag "Clients" 10 160, mkFrag "3 000" 200 160, mkFrag "500" 350 160]

/-- A fragment whose bounding box has a single corner: the extractor's
access to `bbox[2]` raises on it. -/
def badFrag : Frag := ⟨some "750", [(400, 95)]⟩

/-- A fragment with no text at all. -/
def noTextFrag : Frag := ⟨none, [(400, 90), (460, 90), (460, 100), (400, 100)]⟩

/-- The three data rows of `goodPage`, at the row level. -/
def rowsG : List (List VFrag) :=
  [[mkV "Terrain" 10 100, mkV "1 000" 200 100, mkV "800" 350 100],
   [mkV "Stock" 10 130, mkV "2 000" 200 130, mkV "700" 350 130],
   [mkV "Clients" 10 160, mkV "3 000" 200 160, mkV "500" 350 160]]

/-- Rows feeding the header-synthesis fallback directly: a "n-2"/"n-3" row
70px above a two-column table whose boundaries are x = 10 and x = 500; both
synthesized fragments align with the single boundary at 500 and lie 60px
apart, so the 30px de-duplication keeps both. -/
def c8Rows : List (List VFrag) :=
  [[mkV "n-2" 470 130, mkV "n-3" 530 130],
   [mkV "Machines" 10 200, mkV "4 700" 500 200],
   [mkV "Outillage" 10 230, mkV "5 100" 500 230],
   [mkV "Mobilier" 10 260, mkV "6 200" 500 260]]

def c8Table : List (List VFrag) := c8Rows.drop 1

def c8Bounds : List ℚ := [10, 500]

/-- A page whose only header candidate is synthesized: the "n-2"/"n-3" row
100px above a three-row table, aligned with its x = 200 and x = 350
columns. -/
def synthInput : List Frag :=
  [mkFrag "n-2" 200 100, mkFrag "n-3" 350 100,
   mkFrag "Terrain" 10 200, mkFrag "1 000" 200 200, mkFrag "800" 350 200,
   mkFrag "Stock" 10 230, mkFrag "2 000" 200 230, mkFrag "700" 350 230,
   mkFrag "Clients" 10 260, mkFrag "3 000" 200 260, mkFrag "500" 350 260]

/-- The synthesized header row of `synthInput`. -/
def synthHdrRow : List VFrag := [mkV "n-2" 200 100, mkV "n-3" 350 100]

/-- A single-fragment row carrying only "Page 3" (Scenario C). -/
def pageRow : List VFrag := [mkV "Page 3" 10 100]

/-- A digitless two-letter fragment: two alphabetic characters, but total
length not exceeding 2. -/
def abRow : List VFrag := [mkV "ab" 10 100]

/-- The financial-likeness predicate as the claim C7 states it: at least
one digit-bearing fragment, or at least one fragment with multiple (at
least two) alphabetic characters, in a non-empty row.  Stated from the
claim's words, for comparison against `isFinancialRow`. -/
def claimFinancialLike (row : List VFrag) : Bool :=
  decide (1 ≤ row.length) &&
    row.any (fun b => hasDigitStr b.text || decide (2 ≤ b.text.toList.countP pyIsAlpha))

theorem insKey_perm {α β : Type} [LinearOrder β] (key : α → β) (a : α) (l : List α) :
    (insKey key a l).Perm (a :: l) := by
  induction l with
  | nil => simp [insKey]
  | cons b bs ih =>
      simp only [insKey]
      split
      · exact List.Perm.refl _
      · exact (List.Perm.cons b ih).trans (List.Perm.swap a b bs)

theorem sortKey_perm {α β : Type} [LinearOrder β] (key : α → β) (l : List α) :
    (sortKey key l).Perm l := by
  induction l with
  | nil => simp [sortKey]
  | cons a as ih => exact (insKey_perm key a (sortKey key as)).trans (List.Perm.cons a ih)

theorem insKey_sorted {α β : Type} [LinearOrder β] (key : α → β) (a : α) {l : List α}
    (h : l.Pairwise (fun x y => key x ≤ key y)) :
    (insKey key a l).Pairwise (fun x y => key x ≤ key y) := by
  induction l with
  | nil => simp [insKey]
  | cons b bs ih =>
      rcases List.pairwise_cons.mp h with ⟨hb, hbs⟩
      simp only [insKey]
      split
      · refine List.pairwise_cons.mpr ⟨?_, h⟩
        intro y hy
        rcases List.mem_cons.mp hy with rfl | hy2
        · assumption
        · exact le_trans (by assumption) (hb y hy2)
      · refine List.pairwise_cons.mpr ⟨?_, ih hbs⟩
        intro y hy
        rcases List.mem_cons.mp ((insKey_perm key a bs).mem_iff.mp hy) with rfl | hy2
        · exact le_of_not_le (by assumption)
        · exact hb y hy2

theorem sortKey_sorted {α β : Type} [LinearOrder β] (key : α → β) (l : List α) :
    (sortKey key l).Pairwise (fun x y => key x ≤ key y) := by
  induction l with
  | nil => simp [sortKey]
  | cons a as ih => exact insKey_sorted key a ih

theorem dedupSort_sorted (l : List ℚ) : (dedupSort l).Pairwise (· ≤ ·) := by
  simpa using sortKey_sorted (id : ℚ → ℚ) l.dedup

theorem dedupSort_nodup (l : List ℚ) : (dedupSort l).Nodup :=
  ((sortKey_perm (id : ℚ → ℚ) l.dedup).nodup_iff).mpr l.nodup_dedup

theorem dedupSort_mem {l : List ℚ} {a : ℚ} : a ∈ dedupSort l ↔ a ∈ l :=
  ((sortKey_perm (id : ℚ → ℚ) l.dedup).mem_iff).trans (List.mem_dedup)

theorem pairwise_lt_of_le_nodup {l : List ℚ} (hs : l.Pairwise (· ≤ ·)) (hn : l.Nodup) :
    l.Pairwise (· < ·) :=
  (hs.and hn).imp (fun h => lt_of_le_of_ne h.1 h.2)

theorem dedupSort_sorted_lt (l : List ℚ) : (dedupSort l).Pairwise (· < ·) :=
  pairwise_lt_of_le_nodup (dedupSort_sorted l) (dedupSort_nodup l)

theorem pyRound_lb (q : ℚ) : Int.floor q ≤ pyRound q := by
  unfold pyRound; split_ifs <;> omega

theorem pyRound_ub (q : ℚ) : pyRound q ≤ Int.floor q + 1 := by
  unfold pyRound; split_ifs <;> omega

theorem pyRound_mono {x y : ℚ} (h : x ≤ y) : pyRound x ≤ pyRound y := by
  rcases lt_or_eq_of_le (Int.floor_le_floor h) with hf | hf
  · calc pyRound x ≤ Int.floor x + 1 := pyRound_ub x
      _ ≤ Int.floor y := by omega
      _ ≤ pyRound y := pyRound_lb y
  · unfold pyRound
    rw [hf]
    split_ifs <;> first | omega | linarith

theorem bucket_mono {x y : ℚ} (h : x ≤ y) : bucket x ≤ bucket y := by
  unfold bucket
  have h10 : x / 10 ≤ y / 10 := by linarith
  have h2 : ((pyRound (x / 10) : ℤ) : ℚ) ≤ ((pyRound (y / 10) : ℤ) : ℚ) := by
    exact_mod_cast pyRound_mono h10
  linarith

theorem foldl_min_le_init (l : List ℚ) (a : ℚ) : l.foldl min a ≤ a := by
  induction l generalizing a with
  | nil => simp
  | cons x xs ih =>
      simp only [List.foldl_cons]
      exact le_trans (ih (min a x)) (min_le_left a x)

theorem foldl_min_le_mem {l : List ℚ} {x : ℚ} (hx : x ∈ l) (a : ℚ) : l.foldl min a ≤ x := by
  induction l generalizing a with
  | nil => cases hx
  | cons b bs ih =>
      simp only [List.foldl_cons]
      rcases List.mem_cons.mp hx with rfl | hx2
      · exact le_trans (foldl_min_le_init bs (min a x)) (min_le_right a x)
      · exact ih hx2 (min a b)

theorem foldl_pick_mem {α β : Type} [LinearOrder β] (f : α → β) (l : List α) (a : α) :
    l.foldl (fun best e => if f e < f best then e else best) a ∈ a :: l := by
  induction l generalizing a with
  | nil => simp
  | cons x xs ih =>
      simp only [List.foldl_cons]
      rcases List.mem_cons.mp (ih (if f x < f a then x else a)) with h | h
      · rw [h]
        split_ifs
        · exact List.mem_cons_of_mem a (List.mem_cons_self x xs)
        · exact List.mem_cons_self a (x :: xs)
      · exact List.mem_cons_of_mem a (List.mem_cons_of_mem x h)

theorem pyMinBy_mem {α β : Type} [LinearOrder β] (f : α → β) {l : List α} {a : α}
    (h : pyMinBy f l = some a) : a ∈ l := by
  cases l with
  | nil => simp [pyMinBy] at h
  | cons b bs =>
      simp only [pyMinBy, Option.some.injEq] at h
      rw [← h]
      exact foldl_pick_mem f bs b


theorem sweepAux_out (cnt : ℚ → Nat) (lm thr : ℚ) (X : List ℚ) :
    ∀ (xs cur : List ℚ), (∀ c ∈ cur, c ∈ X ∧ thr ≤ |c - lm|) → (∀ x ∈ xs, x ∈ X) →
      ∀ r ∈ sweepAux cnt lm thr cur xs, r ∈ X ∧ thr ≤ |r - lm| := by
  intro xs
  induction xs with
  | nil =>
      intro cur hcur _ r hr
      simp only [sweepAux, sweepRep] at hr
      cases hmb : pyMinBy (fun p => -(cnt p : ℤ)) cur.reverse with
      | none => rw [hmb] at hr; simp at hr
      | some a =>
          rw [hmb] at hr
          simp only [List.mem_singleton] at hr
          rw [hr]
          exact hcur a (List.mem_reverse.mp (pyMinBy_mem _ hmb))
  | cons x rest ih =>
      intro cur hcur hxs r hr
      have hxX : x ∈ X := hxs x (List.mem_cons_self x rest)
      have hrest : ∀ z ∈ rest, z ∈ X := fun z hz => hxs z (List.mem_cons_of_mem x hz)
      cases cur with
      | nil =>
          simp only [sweepAux] at hr
          by_cases hskip : |x - lm| < thr
          · rw [if_pos hskip] at hr
            exact ih [] (by simp) hrest r hr
          · rw [if_neg hskip] at hr
            refine ih [x] ?_ hrest r hr
            intro c hc
            rcases List.mem_singleton.mp hc with rfl
            exact ⟨hxX, le_of_not_lt hskip⟩
      | cons l ls =>
          simp only [sweepAux] at hr
          by_cases hskip : |x - lm| < thr
          · rw [if_pos hskip] at hr
            exact ih (l :: ls) hcur hrest r hr
          · rw [if_neg hskip] at hr
            have hxP : x ∈ X ∧ thr ≤ |x - lm| := ⟨hxX, le_of_not_lt hskip⟩
            by_cases hmerge : x - l < thr
            · rw [if_pos hmerge] at hr
              refine ih (x :: l :: ls) ?_ hrest r hr
              intro c hc
              rcases List.mem_cons.mp hc with rfl | hc2
              · exact hxP
              · exact hcur c hc2
            · rw [if_neg hmerge] at hr
              rcases List.mem_append.mp hr with h | h
              · simp only [sweepRep] at h
                cases hmb : pyMinBy (fun p => -(cnt p : ℤ)) (l :: ls).reverse with
                | none => rw [hmb] at h; simp at h
                | some a =>
                    rw [hmb] at h
                    simp only [List.mem_singleton] at h
                    rw [h]
                    exact hcur a (List.mem_reverse.mp (pyMinBy_mem _ hmb))
              · refine ih [x] ?_ hrest r h
                intro c hc
                rcases List.mem_singleton.mp hc with rfl
                exact hxP

theorem keepTable_mem {t u : List (List VFrag)} (h : t ∈ keepTable u) :
    t = u ∧ 3 ≤ u.length := by
  unfold keepTable at h
  split at h
  · rename_i hcond
    simp only [List.mem_singleton] at h
    exact ⟨h, hcond.1⟩
  · simp at h

theorem groupTablesAux_min_length :
    ∀ (rest cur : List (List VFrag)) (t : List (List VFrag)),
      t ∈ groupTablesAux cur rest → 3 ≤ t.length := by
  intro rest
  induction rest with
  | nil =>
      intro cur t ht
      obtain ⟨rfl, hlen⟩ := keepTable_mem (by simpa [groupTablesAux] using ht)
      exact hlen
  | cons r rs ih =>
      intro cur t ht
      cases cur with
      | nil => exact ih [r] t (by simpa [groupTablesAux] using ht)
      | cons p ps =>
          simp only [groupTablesAux] at ht
          split at ht
          · exact ih _ t ht
          · rcases List.mem_append.mp ht with h | h
            · obtain ⟨rfl, hlen⟩ := keepTable_mem h
              exact hlen
            · exact ih [r] t h

theorem keepTable_flatten (u : List (List VFrag)) : (keepTable u).flatten.Sublist u := by
  unfold keepTable
  split
  · simp
  · simp

theorem groupTablesAux_flatten_sublist :
    ∀ (rest cur : List (List VFrag)),
      (groupTablesAux cur rest).flatten.Sublist (cur.reverse ++ rest) := by
  intro rest
  induction rest with
  | nil =>
      intro cur
      simpa [groupTablesAux] using keepTable_flatten cur.reverse
  | cons r rs ih =>
      intro cur
      cases cur with
      | nil =>
          simp only [groupTablesAux]
          simpa using ih [r]
      | cons p ps =>
          simp only [groupTablesAux]
          split
          · have h := ih (r :: p :: ps)
            simpa [List.reverse_cons, List.append_assoc] using h
          · rw [List.flatten_append]
            have h1 : (keepTable (p :: ps).reverse).flatten.Sublist (p :: ps).reverse :=
              keepTable_flatten _
            have h2 : (groupTablesAux [r] rs).flatten.Sublist (r :: rs) := by
              simpa using ih [r]
            exact List.Sublist.append h1 h2

theorem groupRowsIntoTables_min_length {rows t : List (List VFrag)}
    (ht : t ∈ groupRowsIntoTables rows) : 3 ≤ t.length := by
  cases rows with
  | nil => simp [groupRowsIntoTables] at ht
  | cons r rest => exact groupTablesAux_min_length rest [r] t ht

theorem groupRowsIntoTables_flatten_sublist (rows : List (List VFrag)) :
    (groupRowsIntoTables rows).flatten.Sublist rows := by
  cases rows with
  | nil => simp [groupRowsIntoTables]
  | cons r rest => simpa using groupTablesAux_flatten_sublist rest [r]

theorem cbLeftmost_le_position {t : List (List VFrag)} {y : ℚ} (hy : y ∈ cbPositions t) :
    cbLeftmost t ≤ y := by
  obtain ⟨x, hx, rfl⟩ := List.mem_map.mp (dedupSort_mem.mp hy)
  unfold cbLeftmost
  rcases hxs : cbXs t with _ | ⟨x0, rest⟩
  · rw [hxs] at hx; cases hx
  · have hmin : cbMinX t ≤ x := by
      unfold cbMinX
      rw [hxs] at hx ⊢
      rcases List.mem_cons.mp hx with rfl | hx2
      · exact foldl_min_le_init rest x
      · exact foldl_min_le_mem hx2 x0
    exact bucket_mono hmin

theorem cbThr_ge_50 (t : List (List VFrag)) : 50 ≤ cbThr t := by
  unfold cbThr
  split
  · exact le_refl _
  · exact le_max_left _ _

theorem cbReps_prop {t : List (List VFrag)} {r : ℚ} (hr : r ∈ cbReps t) :
    r ∈ cbPositions t ∧ cbThr t ≤ |r - cbLeftmost t| :=
  sweepAux_out (cbCnt t) (cbLeftmost t) (cbThr t) (cbPositions t) (cbPositions t) []
    (by simp) (fun _ hx => hx) r hr

theorem cbLeftmost_lt_rep {t : List (List VFrag)} {r : ℚ} (hr : r ∈ cbReps t) :
    cbLeftmost t < r := by
  obtain ⟨hpos, hthr⟩ := cbReps_prop hr
  have hle := cbLeftmost_le_position hpos
  have h50 := cbThr_ge_50 t
  rw [abs_of_nonneg (by linarith)] at hthr
  linarith

theorem cbClusters_sorted_lt (t : List (List VFrag)) : (cbClusters t).Pairwise (· < ·) :=
  dedupSort_sorted_lt _

theorem cbClusters_nodup (t : List (List VFrag)) : (cbClusters t).Nodup :=
  dedupSort_nodup _

theorem cbClusters_mem {t : List (List VFrag)} {a : ℚ} :
    a ∈ cbClusters t ↔ a = cbLeftmost t ∨ a ∈ cbReps t := by
  unfold cbClusters
  rw [dedupSort_mem]
  simp

theorem cbClusters_head (t : List (List VFrag)) :
    ∃ tl, cbClusters t = cbLeftmost t :: tl := by
  have hmem : cbLeftmost t ∈ cbClusters t := cbClusters_mem.mpr (Or.inl rfl)
  cases hc : cbClusters t with
  | nil => rw [hc] at hmem; cases hmem
  | cons c cs =>
      have hsorted := cbClusters_sorted_lt t
      rw [hc] at hsorted hmem
      rcases List.mem_cons.mp hmem with h | h
      · exact ⟨cs, by rw [h]⟩
      · have hclm : c < cbLeftmost t := (List.pairwise_cons.mp hsorted).1 _ h
        have hcmem : c ∈ cbClusters t := by rw [hc]; exact List.mem_cons_self _ _
        rcases cbClusters_mem.mp hcmem with h2 | h2
        · rw [h2] at hclm; exact absurd hclm (lt_irrefl _)
        · exact absurd hclm (not_lt_of_gt (cbLeftmost_lt_rep h2))

theorem columnBoundaries_props (t : List (List VFrag)) (h : cbXs t ≠ []) :
    (columnBoundaries t).Pairwise (· < ·) ∧ (columnBoundaries t).length ≤ 8 ∧
      (columnBoundaries t).head? = some (cbLeftmost t) := by
  have ht : t.isEmpty = false := by
    cases t with
    | nil => simp [cbXs] at h
    | cons a b => rfl
  have hxe : (cbXs t).isEmpty = false := by
    cases hx : cbXs t with
    | nil => exact absurd hx h
    | cons a b => rfl
  obtain ⟨tl, hc⟩ := cbClusters_head t
  have hsorted := cbClusters_sorted_lt t
  have hnodup := cbClusters_nodup t
  have heq : columnBoundaries t =
      (if 8 < (cbClusters t).length then
        (cbClusters t).headI ::
          sortKey id (((sortKey (fun pr => -(pr.2 : ℤ))
            ((cbClusters t).tail.map (fun c => (c, cbClusterFreq t c)))).take 7).map
              (fun pr => pr.1))
      else cbClusters t) := by
    simp only [columnBoundaries, ht, hxe, Bool.false_eq_true, if_false]
  by_cases hcap : 8 < (cbClusters t).length
  · -- the 8-column cap branch
    rw [heq, if_pos hcap, hc]
    simp only [List.headI_cons, List.tail_cons]
    have htl_lt : ∀ y ∈ tl, cbLeftmost t < y := by
      have h2 := hsorted
      rw [hc] at h2
      exact (List.pairwise_cons.mp h2).1
    have htl_nodup : tl.Nodup := by
      have h2 := hnodup
      rw [hc] at h2
      exact (List.nodup_cons.mp h2).2
    have hfst_perm : ((sortKey (fun pr => -(pr.2 : ℤ))
        (tl.map (fun c => (c, cbClusterFreq t c)))).map (fun pr => pr.1)).Perm tl := by
      have h2 := (sortKey_perm (fun pr : ℚ × Nat => -(pr.2 : ℤ))
        (tl.map (fun c => (c, cbClusterFreq t c)))).map (fun pr : ℚ × Nat => pr.1)
      rw [List.map_map] at h2
      have hcomp : ((fun pr : ℚ × Nat => pr.1) ∘ fun c : ℚ => (c, cbClusterFreq t c)) = id := by
        funext c; rfl
      rw [hcomp, List.map_id] at h2
      exact h2
    have hfst_nodup : ((sortKey (fun pr => -(pr.2 : ℤ))
        (tl.map (fun c => (c, cbClusterFreq t c)))).map (fun pr => pr.1)).Nodup :=
      (hfst_perm.nodup_iff).mpr htl_nodup
    have hchosen_eq : ((sortKey (fun pr => -(pr.2 : ℤ))
        (tl.map (fun c => (c, cbClusterFreq t c)))).take 7).map (fun pr => pr.1) =
        ((sortKey (fun pr => -(pr.2 : ℤ))
          (tl.map (fun c => (c, cbClusterFreq t c)))).map (fun pr => pr.1)).take 7 := by
      rw [List.map_take]
    have hchosen_nodup : (((sortKey (fun pr => -(pr.2 : ℤ))
        (tl.map (fun c => (c, cbClusterFreq t c)))).take 7).map (fun pr => pr.1)).Nodup := by
      rw [hchosen_eq]
      exact hfst_nodup.sublist (List.take_sublist 7 _)
    have hchosen_sub : ∀ y ∈ ((sortKey (fun pr => -(pr.2 : ℤ))
        (tl.map (fun c => (c, cbClusterFreq t c)))).take 7).map (fun pr => pr.1), y ∈ tl := by
      intro y hy
      rw [hchosen_eq] at hy
      exact hfst_perm.mem_iff.mp (List.mem_of_mem_take hy)
    have hfinal_perm : (sortKey id (((sortKey (fun pr => -(pr.2 : ℤ))
        (tl.map (fun c => (c, cbClusterFreq t c)))).take 7).map (fun pr => pr.1))).Perm
        (((sortKey (fun pr => -(pr.2 : ℤ))
          (tl.map (fun c => (c, cbClusterFreq t c)))).take 7).map (fun pr => pr.1)) :=
      sortKey_perm _ _
    have hfinal_sorted : (sortKey id (((sortKey (fun pr => -(pr.2 : ℤ))
        (tl.map (fun c => (c, cbClusterFreq t c)))).take 7).map
          (fun pr => pr.1))).Pairwise (· < ·) := by
      refine pairwise_lt_of_le_nodup ?_ ((hfinal_perm.nodup_iff).mpr hchosen_nodup)
      simpa using sortKey_sorted (id : ℚ → ℚ) _
    refine ⟨?_, ?_, rfl⟩
    · refine List.pairwise_cons.mpr ⟨?_, hfinal_sorted⟩
      intro y hy
      exact htl_lt y (hchosen_sub y (hfinal_perm.mem_iff.mp hy))
    · have hlen : (sortKey id (((sortKey (fun pr => -(pr.2 : ℤ))
          (tl.map (fun c => (c, cbClusterFreq t c)))).take 7).map
            (fun pr => pr.1))).length ≤ 7 := by
        rw [hfinal_perm.length_eq, List.length_map, List.length_take]
        omega
      simp only [List.length_cons]
      omega
  · rw [heq, if_neg hcap]
    refine ⟨hsorted, by omega, ?_⟩
    rw [hc]
    rfl


theorem chBlockStep_inv (bounds : List ℚ) (acc : List VFrag) (b : VFrag)
    (h1 : ∀ a ∈ acc, ∃ bd ∈ bounds, |a.x - bd| < 50)
    (h2 : acc.Pairwise (fun a c => 30 ≤ |a.x - c.x|)) :
    (∀ a ∈ chBlockStep bounds acc b, ∃ bd ∈ bounds, |a.x - bd| < 50) ∧
      (chBlockStep bounds acc b).Pairwise (fun a c => 30 ≤ |a.x - c.x|) := by
  simp only [chBlockStep]
  split_ifs with hA hB
  · exact ⟨h1, h2⟩
  · simp only [Bool.and_eq_true, List.any_eq_true, decide_eq_true_eq] at hA
    simp only [List.any_eq_true, decide_eq_true_eq, not_exists, not_and, not_lt] at hB
    constructor
    · intro a ha
      rcases List.mem_append.mp ha with ha2 | ha2
      · exact h1 a ha2
      · rcases List.mem_singleton.mp ha2 with rfl
        obtain ⟨bd, hbd, hdist⟩ := hA.2
        exact ⟨bd, hbd, hdist⟩
    · rw [List.pairwise_append]
      refine ⟨h2, List.pairwise_singleton _ _, ?_⟩
      intro a ha c hc
      rcases List.mem_singleton.mp hc with rfl
      exact hB a ha
  · exact ⟨h1, h2⟩

theorem foldl_chBlock_inv (bounds : List ℚ) (l : List VFrag) :
    ∀ acc : List VFrag,
      ((∀ a ∈ acc, ∃ bd ∈ bounds, |a.x - bd| < 50) ∧
        acc.Pairwise (fun a c => 30 ≤ |a.x - c.x|)) →
      ((∀ a ∈ l.foldl (chBlockStep bounds) acc, ∃ bd ∈ bounds, |a.x - bd| < 50) ∧
        (l.foldl (chBlockStep bounds) acc).Pairwise (fun a c => 30 ≤ |a.x - c.x|)) := by
  induction l with
  | nil => intro acc h; simpa using h
  | cons b bs ih =>
      intro acc h
      simp only [List.foldl_cons]
      exact ih _ (chBlockStep_inv bounds acc b h.1 h.2)

theorem chRowStep_inv (tableY : Option ℚ) (bounds : List ℚ) (row : List VFrag)
    (acc : List VFrag)
    (h : (∀ a ∈ acc, ∃ bd ∈ bounds, |a.x - bd| < 50) ∧
      acc.Pairwise (fun a c => 30 ≤ |a.x - c.x|)) :
    (∀ a ∈ chRowStep tableY bounds acc row, ∃ bd ∈ bounds, |a.x - bd| < 50) ∧
      (chRowStep tableY bounds acc row).Pairwise (fun a c => 30 ≤ |a.x - c.x|) := by
  cases row with
  | nil => simpa [chRowStep] using h
  | cons b0 bs =>
      simp only [chRowStep]
      split_ifs with h1 h2
      · exact h
      · exact h
      · exact foldl_chBlock_inv bounds (b0 :: bs) acc h

theorem foldl_chRow_inv (tableY : Option ℚ) (bounds : List ℚ)
    (rows : List (List VFrag)) :
    ∀ acc : List VFrag,
      ((∀ a ∈ acc, ∃ bd ∈ bounds, |a.x - bd| < 50) ∧
        acc.Pairwise (fun a c => 30 ≤ |a.x - c.x|)) →
      ((∀ a ∈ rows.foldl (chRowStep tableY bounds) acc, ∃ bd ∈ bounds, |a.x - bd| < 50) ∧
        (rows.foldl (chRowStep tableY bounds) acc).Pairwise (fun a c => 30 ≤ |a.x - c.x|)) := by
  induction rows with
  | nil => intro acc h; simpa using h
  | cons row rs ih =>
      intro acc h
      simp only [List.foldl_cons]
      exact ih _ (chRowStep_inv tableY bounds row acc h)

theorem foldl_length_preserved {α : Type} (f : List String → α → List String)
    (hf : ∀ cells a, (f cells a).length = cells.length) :
    ∀ (l : List α) (cells : List String), (l.foldl f cells).length = cells.length := by
  intro l
  induction l with
  | nil => intro cells; rfl
  | cons a as ih =>
      intro cells
      simp only [List.foldl_cons]
      rw [ih, hf]

theorem assignCells_length (bounds : List ℚ) (row : List VFrag) :
    (assignCells bounds row).length = bounds.length := by
  unfold assignCells
  rw [foldl_length_preserved _ ?_ _ _]
  · exact List.length_replicate _ _
  · intro cells b
    dsimp only
    split
    · simp [List.length_set]
    · simp [List.length_set]
    · rfl

theorem validateAll_eq_none_of_mem {textBlocks : List Frag} {f : Frag}
    (hf : f ∈ textBlocks) (hv : validate f = none) :
    validateAll textBlocks = none := by
  induction textBlocks with
  | nil => cases hf
  | cons g gs ih =>
      rcases List.mem_cons.mp hf with rfl | h2
      · simp [validateAll, hv]
      · cases hg : validate g with
        | none => simp [validateAll, hg]
        | some v => simp [validateAll, hg, ih h2]

theorem extract_eq_nil_of_validateAll_none {textBlocks : List Frag} (pageNum : Nat)
    (hfault : validateAll textBlocks = none) :
    extract_tables_from_page textBlocks pageNum = [] := by
  by_cases he : textBlocks.isEmpty
  · simp [extract_tables_from_page, he]
  · simp [extract_tables_from_page, he, hfault]


/-- C1: `extract_tables_from_page` never raises — it is total in this
embedding, with the `try`/`except` of `_detect_tables_from_coordinates`
modelled by the `none` branch of `validateAll` — and whenever an internal
fault occurs during table detection (a fragment's text or bounding-box
access raises, the only fallible operations, all performed during row
grouping and classification before any table is accumulated), the call
returns the empty table list for that page, not a partial one. -/
theorem c1_fault_yields_empty_page (textBlocks : List Frag) (pageNum : Nat)
    (hfault : validateAll textBlocks = none) :
    extract_tables_from_page textBlocks pageNum = [] :=
  extract_eq_nil_of_validateAll_none pageNum hfault

/-- Witness for C1: a page whose only fragment has a one-corner bounding
box faults, and the page yields the empty list. -/
theorem c1_witness : extract_tables_from_page [badFrag] 1 = [] :=
  c1_fault_yields_empty_page [badFrag] 1 (by with_unfolding_all decide)

/-- C2 counterexample: on `sharedHeaderInput` the single "Brut"/"Net"
header row is matched to both detected tables, so the "Brut" fragment is
rendered in two different tables of the same page — the claimed partition
property fails for matched header rows. -/
theorem c2_counterexample :
    (completeTablesOf sharedHeaderInput).length = 2 ∧
      mkV "Brut" 200 50 ∈ ((completeTablesOf sharedHeaderInput).getD 0 []).flatten ∧
      mkV "Brut" 200 50 ∈ ((completeTablesOf sharedHeaderInput).getD 1 []).flatten := by
  with_unfolding_all decide

/-- C2 amended: the table assembler partitions rows, so the body rows of
the detected tables form a duplicate-free selection (a sublist) of the
classified data rows — no fragment of a data row is rendered in two
tables; a matched or synthesized header row, however, can be rendered in
several tables of the page (see the counterexample). -/
theorem c2_body_rows_partition (rows : List (List VFrag)) :
    (groupRowsIntoTables rows).flatten.Sublist rows ∧
      (rows.Nodup → (groupRowsIntoTables rows).flatten.Nodup) := by
  refine ⟨groupRowsIntoTables_flatten_sublist rows, fun hn => ?_⟩
  exact hn.sublist (groupRowsIntoTables_flatten_sublist rows)

/-- Witness for C2's amended statement on the concrete three-row page. -/
theorem c2_witness : (groupRowsIntoTables rowsG).flatten.Nodup :=
  (c2_body_rows_partition rowsG).2 (by with_unfolding_all decide)

/-- C3: for a block with at least one fragment, the detected column
boundaries are strictly increasing, number at most 8, and start with the
minimum left-edge x rounded to its 10-pixel bucket; the empty input yields
the empty output. -/
theorem c3_boundary_invariants (tableRows : List (List VFrag)) :
    (tableRows = [] → columnBoundaries tableRows = []) ∧
      (cbXs tableRows ≠ [] →
        (columnBoundaries tableRows).Pairwise (· < ·) ∧
          (columnBoundaries tableRows).length ≤ 8 ∧
          (columnBoundaries tableRows).head? = some (bucket (cbMinX tableRows))) := by
  constructor
  · intro h; subst h; rfl
  · intro h
    simpa [cbLeftmost] using columnBoundaries_props tableRows h

/-- Witness for C3 on the concrete three-row page: boundaries 10, 200, 350. -/
theorem c3_witness :
    (columnBoundaries rowsG).Pairwise (· < ·) ∧
      (columnBoundaries rowsG).length ≤ 8 ∧
      (columnBoundaries rowsG).head? = some (bucket (cbMinX rowsG)) :=
  (c3_boundary_invariants rowsG).2 (by with_unfolding_all decide)

/-- C4 counterexample: on the exact Scenario A input the extractor returns
no table at all, refuting the claimed single TableBlock with matched
header. -/
theorem c4_counterexample : extract_tables_from_page scenarioA 1 = [] := by
  with_unfolding_all decide

/-- C4 amended: Scenario A classifies the y=100 row as a header and the
two remaining rows as data; two data rows are fewer than the 3-row minimum
of `_group_rows_into_tables`, so no block is formed and the extractor
returns the empty list (not one TableBlock as claimed). -/
theorem c4_scenario_a_yields_nothing :
    (dataRowsOf (groupIntoRows scenarioAV)).length = 2 ∧
      groupRowsIntoTables (dataRowsOf (groupIntoRows scenarioAV)) = [] ∧
      extract_tables_from_page scenarioA 1 = [] := by
  with_unfolding_all decide

/-- C5 counterexample: `goodPage` alone yields one table, but appending a
single fragment with a degenerate bounding box makes the whole page's
result empty — the malformed fragment is not excluded individually; it
discards the entire page's tables. -/
theorem c5_counterexample :
    extract_tables_from_page (goodPage ++ [badFrag]) 1 = [] ∧
      extract_tables_from_page goodPage 1 ≠ [] := by
  with_unfolding_all decide

/-- C5 amended: a fragment with missing text or a degenerate bounding box
never makes the page call raise, but instead of skipping just that
fragment the extractor degrades the whole page to the empty table list. -/
theorem c5_malformed_fragment_empties_page (textBlocks : List Frag) (pageNum : Nat)
    (f : Frag) (hf : f ∈ textBlocks) (hv : validate f = none) :
    extract_tables_from_page textBlocks pageNum = [] :=
  extract_eq_nil_of_validateAll_none pageNum (validateAll_eq_none_of_mem hf hv)

/-- Witness for C5's amended statement: a good page plus one fragment with
no text yields the empty list. -/
theorem c5_witness : extract_tables_from_page (goodPage ++ [noTextFrag]) 1 = [] :=
  c5_malformed_fragment_empties_page (goodPage ++ [noTextFrag]) 1 noTextFrag
    (by with_unfolding_all decide) (by with_unfolding_all decide)

/-- C6: every table kept by the assembler has at least 3 rows, and the
isolated single financial row of Scenario B yields no block, so the
extractor returns the empty list. -/
theorem c6_minimum_three_rows :
    (∀ (rows t : List (List VFrag)), t ∈ groupRowsIntoTables rows → 3 ≤ t.length) ∧
      extract_tables_from_page scenarioB 1 = [] :=
  ⟨fun _ _ ht => groupRowsIntoTables_min_length ht, by with_unfolding_all decide⟩

/-- Witness for C6: the three-row table of `rowsG` is kept and has 3 rows. -/
theorem c6_witness : 3 ≤ rowsG.length :=
  c6_minimum_three_rows.1 rowsG rowsG (by with_unfolding_all decide)

/-- C7 counterexample: the claim's reading of the text-bearing branch —
"at least one fragment with multiple alphabetic characters" — holds for a
digitless two-letter fragment "ab", yet `_is_financial_row` rejects it,
because the source requires the fragment's whole text to be longer than 2
characters besides containing a letter. -/
theorem c7_counterexample :
    claimFinancialLike abRow = true ∧ isFinancialRow abRow = false := by
  with_unfolding_all decide

/-- C7 amended: a row containing only "Page 3" is not header-like, and
`_is_financial_row` is true exactly when the row is non-empty and carries
a digit-bearing fragment or a fragment with at least one alphabetic
character and more than two characters in total (not "multiple alphabetic
characters" — see the counterexample). -/
theorem c7_financial_characterisation :
    (∀ row : List VFrag, isFinancialRow row = true ↔
        (row ≠ [] ∧ ∃ b ∈ row, hasDigitStr b.text = true ∨
          (hasAlphaStr b.text = true ∧ 2 < b.text.length))) ∧
      isHeaderRow pageRow = false := by
  constructor
  · intro row
    cases row with
    | nil => simp [isFinancialRow]
    | cons b bs =>
        simp only [isFinancialRow]
        rw [if_neg (by simp)]
        simp only [Bool.and_eq_true, Bool.or_eq_true, List.any_eq_true,
          Bool.not_eq_true', decide_eq_true_eq]
        constructor
        · rintro ⟨h1 | h1, -⟩
          · obtain ⟨a, ha, ⟨hd, hal⟩, hlen2⟩ := h1
            exact ⟨by simp, a, ha, Or.inr ⟨hal, hlen2⟩⟩
          · obtain ⟨a, ha, hd⟩ := h1
            exact ⟨by simp, a, ha, Or.inl hd⟩
        · rintro ⟨-, a, ha, hcase⟩
          refine ⟨?_, by simp⟩
          rcases hcase with hd | ⟨hal, hlen2⟩
          · exact Or.inr ⟨a, ha, hd⟩
          · cases hdig : hasDigitStr a.text with
            | true => exact Or.inr ⟨a, ha, hdig⟩
            | false => exact Or.inl ⟨a, ha, ⟨hdig, hal⟩, hlen2⟩
  · with_unfolding_all decide

/-- Witness for C7: the "Page 3" row is financial-like (it carries a
digit). -/
theorem c7_witness : isFinancialRow pageRow = true :=
  (c7_financial_characterisation.1 pageRow).mpr (by with_unfolding_all decide)

/-- C8 counterexample: on a table with boundaries x = 10 and x = 500, the
synthesis fallback keeps both "n-2" (x=470) and "n-3" (x=530) — they are
60px apart, so the 30px de-duplication window does not merge them — and
returns a synthesized header even though only ONE distinct column boundary
(x=500) is covered within the 50px alignment tolerance: the de-duplication
is per fragment-x, not per column, and the acceptance test counts kept
fragments, not covered columns. -/
theorem c8_counterexample :
    constructHeader c8Rows c8Table c8Bounds (some 200) =
        some [mkV "n-2" 470 130, mkV "n-3" 530 130] ∧
      (c8Bounds.countP (fun bd =>
        [mkV "n-2" 470 130, mkV "n-3" 530 130].any
          (fun b => decide (|b.x - bd| < 50)))) = 1 := by
  with_unfolding_all decide

/-- C8 amended: whenever the synthesis fallback returns a header, it has
kept at least 2 fragments, every kept fragment lies within 50px of some
column boundary, and the kept fragments are pairwise at least 30px apart
(first match wins inside the 30px window); covering two DISTINCT columns
is not guaranteed — two fragments may align with the same boundary. -/
theorem c8_synthesis_guarantees (allRows table : List (List VFrag)) (bounds : List ℚ)
    (tableY : Option ℚ) (l : List VFrag)
    (h : constructHeader allRows table bounds tableY = some l) :
    2 ≤ l.length ∧ (∀ a ∈ l, ∃ bd ∈ bounds, |a.x - bd| < 50) ∧
      l.Pairwise (fun a c => 30 ≤ |a.x - c.x|) := by
  simp only [constructHeader] at h
  have hinv := foldl_chRow_inv tableY bounds allRows []
    (by exact ⟨fun a ha => absurd ha (List.not_mem_nil a), List.Pairwise.nil⟩)
  split at h
  · rename_i hlen
    obtain rfl := (Option.some.inj h).symm
    exact ⟨by simpa using hlen, hinv.1, hinv.2⟩
  · cases h

/-- Witness for C8: the synthesized "n-2"/"n-3" header satisfies the
amended guarantees. -/
theorem c8_witness :
    2 ≤ ([mkV "n-2" 470 130, mkV "n-3" 530 130] : List VFrag).length ∧
      (∀ a ∈ ([mkV "n-2" 470 130, mkV "n-3" 530 130] : List VFrag),
        ∃ bd ∈ c8Bounds, |a.x - bd| < 50) ∧
      ([mkV "n-2" 470 130, mkV "n-3" 530 130] : List VFrag).Pairwise
        (fun a c => 30 ≤ |a.x - c.x|) :=
  c8_synthesis_guarantees c8Rows c8Table c8Bounds (some 200)
    [mkV "n-2" 470 130, mkV "n-3" 530 130] (by with_unfolding_all decide)

/-- C9 counterexample: on `synthInput` the first rendered row IS the
synthesized "n-2"/"n-3" header, yet it is emitted with `td` cells, because
`_create_aligned_html_table` only checks `_is_header_row` on the first row
and never learns whether that row was the matched or synthesized header. -/
theorem c9_counterexample :
    (completeTablesOf synthInput).map (fun t => t.head?) = [some synthHdrRow] ∧
      rowTag 0 synthHdrRow = "td" ∧
      extract_tables_from_page synthInput 1 =
        [⟨"<table><tr><td></td><td>n-2</td><td>n-3</td></tr><tr><td>Terrain</td><td>1 000</td><td>800</td></tr><tr><td>Stock</td><td>2 000</td><td>700</td></tr><tr><td>Clients</td><td>3 000</td><td>500</td></tr></table>"⟩] := by
  with_unfolding_all decide

/-- C9 amended: every rendered row has exactly one cell per column
boundary, and the first row's cells are emitted as header cells exactly
when it independently classifies as header-like — being the matched or
synthesized header does not by itself make it a header row. -/
theorem c9_rendered_rows (bounds : List ℚ) (row : List VFrag) (i : Nat) :
    (assignCells bounds row).length = bounds.length ∧
      (rowTag i row = "th" ↔ (i = 0 ∧ isHeaderRow row = true)) := by
  refine ⟨assignCells_length bounds row, ?_⟩
  unfold rowTag
  split_ifs with hcond
  · simp only [Bool.and_eq_true, decide_eq_true_eq] at hcond
    simp [hcond]
  · simp only [Bool.and_eq_true, decide_eq_true_eq, not_and] at hcond
    constructor
    · intro habs
      exact absurd habs (by decide)
    · rintro ⟨h0, hh⟩
      exact absurd hh (hcond h0)

/-- Witness for C9's amended statement at the synthesized header row. -/
theorem c9_witness :
    (assignCells c8Bounds synthHdrRow).length = c8Bounds.length ∧
      (rowTag 0 synthHdrRow = "th" ↔ (0 = 0 ∧ isHeaderRow synthHdrRow = true)) :=
  c9_rendered_rows c8Bounds synthHdrRow 0

/-- C10: the classification step of `_detect_tables_from_coordinates`
tests header-likeness first and only otherwise financial-likeness, so a
header-like row is never among the data rows handed to the assembler:
every row of every assembled TableBlock classifies as non-header. -/
theorem c10_header_rows_never_body (rows t : List (List VFrag)) (r : List VFrag)
    (ht : t ∈ groupRowsIntoTables (dataRowsOf rows)) (hr : r ∈ t) :
    isHeaderRow r = false := by
  have hjoin : r ∈ (groupRowsIntoTables (dataRowsOf rows)).flatten :=
    List.mem_flatten.mpr ⟨t, ht, hr⟩
  have hmem : r ∈ dataRowsOf rows :=
    (groupRowsIntoTables_flatten_sublist (dataRowsOf rows)).subset hjoin
  have hfil := (List.mem_filter.mp hmem).2
  simp only [Bool.and_eq_true, Bool.not_eq_true'] at hfil
  exact hfil.1

/-- Witness for C10: the first body row of the `rowsG` table is not
header-like. -/
theorem c10_witness :
    isHeaderRow [mkV "Terrain" 10 100, mkV "1 000" 200 100, mkV "800" 350 100] = false :=
  c10_header_rows_never_body rowsG rowsG
    [mkV "Terrain" 10 100, mkV "1 000" 200 100, mkV "800" 350 100]
    (by with_unfolding_all decide) (by with_unfolding_all decide)
